import Mathlib

/-!
Verification of the geometric generation core of CompDesign Studio.

The development shallowly embeds, over the real numbers:
* the superformula curve evaluator `calculatePoints` of
  `src/components/ParametricDesigner.tsx` (JavaScript floating-point
  arithmetic is modelled by exact real arithmetic; `Math.pow` on a
  non-negative base is modelled by `Real.rpow`, which agrees with it
  whenever the base is positive, or the base is zero and the exponent
  is non-negative);
* the `handleRandomize` parameter generator of the same file (the
  `Math.random()` draws become explicit real inputs in `[0,1)`, and
  `toFixed(1)` becomes rounding to the nearest tenth);
* the recursive fractal tree generator `drawTree` of
  `src/components/AlgorithmicDesigner.tsx` (the canvas
  translate/rotate state is modelled by an explicit affine `Frame`,
  and each `stroke` becomes an emitted `Segment`);
* the growth/parameter state machine of `AlgorithmicDesigner`
  (the React state setters become events of a step function, with a
  history variable recording the depth under which the current growth
  value accumulated).
-/

/-- Parameter record of the superformula evaluator
(`SuperformulaParams` in `types.ts`).  The numeric fields are reals;
`resolution` is used only as a sample count, so it is a natural number. -/
structure SuperformulaParams where
  m : ℝ
  n1 : ℝ
  n2 : ℝ
  n3 : ℝ
  a : ℝ
  b : ℝ
  resolution : ℕ

/-- Radius computed by one iteration of the loop body of
`calculatePoints` (`ParametricDesigner.tsx`, lines 25–34):
`t1 = |cos(m·phi/4)/a|^n2`, `t2 = |sin(m·phi/4)/b|^n3`,
`r = (t1+t2)^(-1/n1)` when `|t1+t2| > 0` (else `r = 0`),
then `r` is clamped to at most `20`. -/
noncomputable def superformulaR (p : SuperformulaParams) (phi : ℝ) : ℝ :=
  let t1 : ℝ := |Real.cos (p.m * phi / 4) / p.a| ^ p.n2
  let t2 : ℝ := |Real.sin (p.m * phi / 4) / p.b| ^ p.n3
  let r : ℝ := if |t1 + t2| > 0 then (t1 + t2) ^ (-1 / p.n1) else 0
  if r > 20 then 20 else r

/-- The point pushed for a given angle `phi`
(`ParametricDesigner.tsx`, lines 36–39): center `(250, 250)`,
scale `150`. -/
noncomputable def superPoint (p : SuperformulaParams) (phi : ℝ) : ℝ × ℝ :=
  (250 + superformulaR p phi * Real.cos phi * 150,
   250 + superformulaR p phi * Real.sin phi * 150)

/-- The evaluator loop of `calculatePoints`
(`ParametricDesigner.tsx`, lines 18–42): for `i = 0 .. resolution`,
sample at `phi = i·2π/resolution`. -/
noncomputable def calculatePoints (p : SuperformulaParams) : List (ℝ × ℝ) :=
  (List.range (p.resolution + 1)).map fun (i : ℕ) =>
    superPoint p (((i : ℝ) * 2 * Real.pi) / p.resolution)

lemma calculatePoints_length (p : SuperformulaParams) :
    (calculatePoints p).length = p.resolution + 1 := by
  unfold calculatePoints
  rw [List.length_map, List.length_range]

lemma calculatePoints_getElem (p : SuperformulaParams) (i : ℕ)
    (hi : i < (calculatePoints p).length) :
    (calculatePoints p)[i] = superPoint p ((i * 2 * Real.pi) / p.resolution) := by
  have hi' : i < p.resolution + 1 := by
    rw [← calculatePoints_length p]; exact hi
  unfold calculatePoints
  rw [List.getElem_map, List.getElem_range]

/-- The clamped radius is never negative. -/
lemma superformulaR_nonneg (p : SuperformulaParams) (phi : ℝ) :
    0 ≤ superformulaR p phi := by
  unfold superformulaR
  set t1 : ℝ := |Real.cos (p.m * phi / 4) / p.a| ^ p.n2 with ht1
  set t2 : ℝ := |Real.sin (p.m * phi / 4) / p.b| ^ p.n3 with ht2
  have h1 : 0 ≤ t1 := Real.rpow_nonneg (abs_nonneg _) _
  have h2 : 0 ≤ t2 := Real.rpow_nonneg (abs_nonneg _) _
  by_cases hsum : |t1 + t2| > 0
  · simp only [hsum, if_true]
    by_cases hr : ((t1 + t2) ^ (-1 / p.n1) : ℝ) > 20
    · simp only [hr, if_true]; norm_num
    · simp only [hr, if_false]
      exact Real.rpow_nonneg (add_nonneg h1 h2) _
  · simp only [hsum, if_false]
    norm_num

/-- The clamped radius is never more than `20`. -/
lemma superformulaR_le_20 (p : SuperformulaParams) (phi : ℝ) :
    superformulaR p phi ≤ 20 := by
  unfold superformulaR
  set t1 : ℝ := |Real.cos (p.m * phi / 4) / p.a| ^ p.n2 with ht1
  set t2 : ℝ := |Real.sin (p.m * phi / 4) / p.b| ^ p.n3 with ht2
  by_cases hsum : |t1 + t2| > 0
  · simp only [hsum, if_true]
    by_cases hr : ((t1 + t2) ^ (-1 / p.n1) : ℝ) > 20
    · simp only [hr, if_true]; norm_num
    · simp only [hr, if_false]; linarith [not_lt.mp hr]
  · simp only [hsum, if_false]
    norm_num

/-- Each coordinate of `superPoint` lies within `3000` of the center. -/
lemma superPoint_bounded (p : SuperformulaParams) (phi : ℝ) :
    |(superPoint p phi).1 - 250| ≤ 3000 ∧ |(superPoint p phi).2 - 250| ≤ 3000 := by
  have h0 := superformulaR_nonneg p phi
  have h20 := superformulaR_le_20 p phi
  constructor
  · have hx : (superPoint p phi).1 - 250 = superformulaR p phi * Real.cos phi * 150 := by
      simp [superPoint]
    rw [hx, abs_mul, abs_mul]
    have hc : |Real.cos phi| ≤ 1 := Real.abs_cos_le_one phi
    have hr : |superformulaR p phi| ≤ 20 := by rw [abs_of_nonneg h0]; exact h20
    have h150 : |(150 : ℝ)| = 150 := by norm_num
    rw [h150]
    nlinarith [abs_nonneg (Real.cos phi), abs_nonneg (superformulaR p phi)]
  · have hy : (superPoint p phi).2 - 250 = superformulaR p phi * Real.sin phi * 150 := by
      simp [superPoint]
    rw [hy, abs_mul, abs_mul]
    have hs : |Real.sin phi| ≤ 1 := Real.abs_sin_le_one phi
    have hr : |superformulaR p phi| ≤ 20 := by rw [abs_of_nonneg h0]; exact h20
    have h150 : |(150 : ℝ)| = 150 := by norm_num
    rw [h150]
    nlinarith [abs_nonneg (Real.sin phi), abs_nonneg (superformulaR p phi)]

/-- The first preset of the designer (`Starfish`). -/
def starfishParams : SuperformulaParams :=
  { m := 5, n1 := 0.5, n2 := 1.7, n3 := 1.7, a := 1, b := 1, resolution := 360 }

/-- Claim C1: for every `SuperformulaParams` with `resolution > 0`,
`calculatePoints` returns an ordered sequence of exactly
`resolution + 1` points, the `i`-th being sampled at
`phi = i·2π/resolution` for `i = 0 .. resolution`. -/
theorem calculatePoints_count_and_sampling (p : SuperformulaParams)
    (hres : 0 < p.resolution) :
    (calculatePoints p).length = p.resolution + 1 ∧
      ∀ i (hi : i < (calculatePoints p).length),
        (calculatePoints p)[i] = superPoint p ((i * 2 * Real.pi) / p.resolution) :=
  ⟨calculatePoints_length p, fun i hi => calculatePoints_getElem p i hi⟩

/-- Witness for C1 at the `Starfish` preset. -/
theorem calculatePoints_count_and_sampling_witness :
    (calculatePoints starfishParams).length = starfishParams.resolution + 1 ∧
      ∀ i (hi : i < (calculatePoints starfishParams).length),
        (calculatePoints starfishParams)[i] =
          superPoint starfishParams ((i * 2 * Real.pi) / starfishParams.resolution) :=
  calculatePoints_count_and_sampling starfishParams (by norm_num [starfishParams])

/-- Claim C2: for every `SuperformulaParams` in the documented domain
(`m ≥ 0`, `n1, n2, n3 > 0`, `a, b > 0`, `resolution > 0`), every point
returned by `calculatePoints` has coordinates within `20·150 = 3000`
units of the center `(250, 250)` (the radius is clamped to at most
`20`; in this real-valued model finiteness is automatic, and on these
domains the model agrees with the IEEE evaluation). -/
theorem calculatePoints_bounded (p : SuperformulaParams)
    (hm : 0 ≤ p.m) (hn1 : 0 < p.n1) (hn2 : 0 < p.n2) (hn3 : 0 < p.n3)
    (ha : 0 < p.a) (hb : 0 < p.b) (hres : 0 < p.resolution) :
    ∀ i (hi : i < (calculatePoints p).length),
      |((calculatePoints p)[i]).1 - 250| ≤ 3000 ∧
        |((calculatePoints p)[i]).2 - 250| ≤ 3000 := by
  intro i hi
  rw [calculatePoints_getElem p i hi]
  exact superPoint_bounded p _

/-- Witness for C2 at the `Starfish` preset, first point. -/
theorem calculatePoints_bounded_witness :
    |((calculatePoints starfishParams).getD 0 ((0 : ℝ), (0 : ℝ))).1 - 250| ≤ 3000 ∧
      |((calculatePoints starfishParams).getD 0 ((0 : ℝ), (0 : ℝ))).2 - 250| ≤ 3000 := by
  have h0 : 0 < (calculatePoints starfishParams).length := by
    rw [calculatePoints_length]
    norm_num
  rw [List.getD_eq_getElem _ _ h0]
  exact calculatePoints_bounded starfishParams (by norm_num [starfishParams])
    (by norm_num [starfishParams]) (by norm_num [starfishParams])
    (by norm_num [starfishParams]) (by norm_num [starfishParams])
    (by norm_num [starfishParams]) (by norm_num [starfishParams]) 0 h0

/-- Claim C7: with `m = 0` and `n1 = n2 = n3 = 1`, `a = b = 1`, the
computed radius is the constant `1` at every angle (the curve is a
circle); stated for every sample resolution and every angle `phi`. -/
theorem superformulaR_circle (res : ℕ) (phi : ℝ) :
    superformulaR ⟨0, 1, 1, 1, 1, 1, res⟩ phi = 1 := by
  unfold superformulaR
  simp only
  norm_num [Real.cos_zero, Real.sin_zero, Real.rpow_one, Real.one_rpow]

/-- For an integer multiple of `π/2`, the two superformula terms with
unit denominators sum to `1`: one of `|cos|`,`|sin|` is `1` and the
other is `0`. -/
lemma abs_cos_rpow_add_abs_sin_rpow (k : ℤ) (n2 n3 : ℝ)
    (hn2 : n2 ≠ 0) (hn3 : n3 ≠ 0) :
    |Real.cos ((k : ℝ) * Real.pi / 2)| ^ n2 +
      |Real.sin ((k : ℝ) * Real.pi / 2)| ^ n3 = 1 := by
  rcases Int.even_or_odd k with ⟨j, hj⟩ | ⟨j, hj⟩
  · have hθ : (k : ℝ) * Real.pi / 2 = (j : ℝ) * Real.pi := by
      rw [hj]; push_cast; ring
    rw [hθ, Real.sin_int_mul_pi, Real.abs_cos_int_mul_pi]
    rw [abs_zero, Real.one_rpow, Real.zero_rpow hn3]
    norm_num
  · have hθ : (k : ℝ) * Real.pi / 2 = (j : ℝ) * Real.pi + Real.pi / 2 := by
      rw [hj]; push_cast; ring
    rw [hθ, Real.cos_add_pi_div_two, Real.sin_add_pi_div_two]
    rw [abs_neg, Real.sin_int_mul_pi, Real.abs_cos_int_mul_pi]
    rw [abs_zero, Real.one_rpow, Real.zero_rpow hn2]
    norm_num

/-- With `a = b = 1` the radius at `phi = 0` is `1`. -/
lemma superformulaR_zero (p : SuperformulaParams)
    (ha : p.a = 1) (hb : p.b = 1) (hn3 : 0 < p.n3) :
    superformulaR p 0 = 1 := by
  unfold superformulaR
  rw [ha, hb]
  simp only [mul_zero, zero_div, Real.cos_zero, Real.sin_zero, div_one,
    abs_one, abs_zero, Real.one_rpow, Real.zero_rpow hn3.ne']
  norm_num [Real.one_rpow]

/-- With `a = b = 1` and an integer symmetry order the radius at
`phi = 2π` is also `1`. -/
lemma superformulaR_two_pi (p : SuperformulaParams) (k : ℤ)
    (hm : p.m = (k : ℝ)) (ha : p.a = 1) (hb : p.b = 1)
    (hn2 : 0 < p.n2) (hn3 : 0 < p.n3) :
    superformulaR p (2 * Real.pi) = 1 := by
  unfold superformulaR
  have hθ : p.m * (2 * Real.pi) / 4 = (k : ℝ) * Real.pi / 2 := by
    rw [hm]; ring
  rw [hθ, ha, hb]
  simp only [div_one]
  rw [abs_cos_rpow_add_abs_sin_rpow k p.n2 p.n3 hn2.ne' hn3.ne']
  norm_num [Real.one_rpow]

/-- Claim C6 (amended): the curve is closed when the symmetry order
`m` is an integer and `a = b = 1` (as in every preset and every
randomized parameter set): the point at sample `i = 0` (`phi = 0`)
equals the point at sample `i = resolution` (`phi = 2π`) exactly.
For non-integer `m`, or `a ≠ b`, the two points differ in general
(see the counterexample). -/
theorem calculatePoints_closed_of_int_m (p : SuperformulaParams) (k : ℤ)
    (hm : p.m = (k : ℝ)) (ha : p.a = 1) (hb : p.b = 1)
    (hn2 : 0 < p.n2) (hn3 : 0 < p.n3) (hres : 0 < p.resolution) :
    (calculatePoints p).getD 0 ((0 : ℝ), (0 : ℝ)) =
      (calculatePoints p).getD p.resolution ((0 : ℝ), (0 : ℝ)) := by
  have h0 : 0 < (calculatePoints p).length := by
    rw [calculatePoints_length]; omega
  have hr : p.resolution < (calculatePoints p).length := by
    rw [calculatePoints_length]; omega
  rw [List.getD_eq_getElem _ _ h0, List.getD_eq_getElem _ _ hr]
  rw [calculatePoints_getElem p 0 h0, calculatePoints_getElem p p.resolution hr]
  have hres' : ((p.resolution : ℕ) : ℝ) ≠ 0 := Nat.cast_ne_zero.mpr hres.ne'
  have hφ0 : ((0 : ℕ) : ℝ) * 2 * Real.pi / (p.resolution : ℝ) = 0 := by
    norm_num
  have hφr : ((p.resolution : ℕ) : ℝ) * 2 * Real.pi / (p.resolution : ℝ)
      = 2 * Real.pi := by
    field_simp
    ring
  rw [hφ0, hφr]
  unfold superPoint
  rw [superformulaR_zero p ha hb hn3, superformulaR_two_pi p k hm ha hb hn2 hn3]
  rw [Real.cos_two_pi, Real.sin_two_pi, Real.cos_zero, Real.sin_zero]

/-- Witness for the amended C6 at the `Starfish` preset (`m = 5`). -/
theorem calculatePoints_closed_of_int_m_witness :
    (calculatePoints starfishParams).getD 0 ((0 : ℝ), (0 : ℝ)) =
      (calculatePoints starfishParams).getD starfishParams.resolution
        ((0 : ℝ), (0 : ℝ)) :=
  calculatePoints_closed_of_int_m starfishParams 5
    (by norm_num [starfishParams]) (by norm_num [starfishParams])
    (by norm_num [starfishParams]) (by norm_num [starfishParams])
    (by norm_num [starfishParams]) (by norm_num [starfishParams])

/-- Parameters refuting the original C6: `m = 1` (odd) with `b = 2 ≠ a`. -/
def closureCexParams : SuperformulaParams :=
  { m := 1, n1 := 1, n2 := 1, n3 := 1, a := 1, b := 2, resolution := 1 }

lemma superformulaR_closureCex_zero : superformulaR closureCexParams 0 = 1 := by
  unfold superformulaR closureCexParams
  simp only [mul_zero, zero_div, one_mul, Real.cos_zero, Real.sin_zero, div_one,
    abs_one, Real.rpow_one]
  norm_num [Real.one_rpow]

lemma superformulaR_closureCex_two_pi :
    superformulaR closureCexParams (2 * Real.pi) = 2 := by
  unfold superformulaR closureCexParams
  have hθ : (1 : ℝ) * (2 * Real.pi) / 4 = Real.pi / 2 := by ring
  have h2 : |(1 : ℝ) / 2| = 1 / 2 := by norm_num
  simp only [hθ, Real.cos_pi_div_two, Real.sin_pi_div_two, div_one,
    abs_zero, Real.rpow_one, zero_add, abs_abs, h2]
  rw [if_pos (by norm_num : (1 : ℝ) / 2 > 0), Real.rpow_neg_one]
  norm_num

/-- Counterexample to C6 as stated: with `m = 1`, `n1 = n2 = n3 = 1`,
`a = 1`, `b = 2`, `resolution = 1` the point at `i = 0` and the point
at `i = resolution` differ even in exact real arithmetic (the code
evaluates `cos(m·phi/4)` at `phi = 2π`, i.e. `m·π/2`, which does not
return to its `phi = 0` value when `m` is odd and `a ≠ b`). -/
theorem calculatePoints_closure_counterexample :
    (calculatePoints closureCexParams).getD 0 ((0 : ℝ), (0 : ℝ)) ≠
      (calculatePoints closureCexParams).getD closureCexParams.resolution
        ((0 : ℝ), (0 : ℝ)) := by
  have h0 : 0 < (calculatePoints closureCexParams).length := by
    rw [calculatePoints_length]; norm_num [closureCexParams]
  have hr : closureCexParams.resolution < (calculatePoints closureCexParams).length := by
    rw [calculatePoints_length]; omega
  rw [List.getD_eq_getElem _ _ h0, List.getD_eq_getElem _ _ hr]
  rw [calculatePoints_getElem _ 0 h0, calculatePoints_getElem _ _ hr]
  have hφ0 : ((0 : ℕ) : ℝ) * 2 * Real.pi / (closureCexParams.resolution : ℝ) = 0 := by
    norm_num
  have hφr : ((closureCexParams.resolution : ℕ) : ℝ) * 2 * Real.pi /
      (closureCexParams.resolution : ℝ) = 2 * Real.pi := by
    norm_num [closureCexParams]
  rw [hφ0, hφr]
  unfold superPoint
  rw [superformulaR_closureCex_zero, superformulaR_closureCex_two_pi]
  rw [Real.cos_two_pi, Real.sin_two_pi, Real.cos_zero, Real.sin_zero]
  intro h
  have hx := congrArg Prod.fst h
  simp only at hx
  norm_num at hx

/-- Parameters used to show that the evaluator does not clamp an
out-of-domain `n1`: `m = 0`, `n2 = n3 = 1`, `a = 1/2`, `b = 1`,
`resolution = 1`, with `n1` left free. -/
noncomputable def clampProbeParams (n1 : ℝ) : SuperformulaParams :=
  { m := 0, n1 := n1, n2 := 1, n3 := 1, a := 1 / 2, b := 1, resolution := 1 }

lemma superformulaR_clampProbe_neg_one :
    superformulaR (clampProbeParams (-1)) 0 = 2 := by
  unfold superformulaR clampProbeParams
  simp only [zero_mul, zero_div, Real.cos_zero, Real.sin_zero, div_one,
    Real.rpow_one]
  have h1 : |(1 : ℝ) / (1 / 2)| = 2 := by norm_num
  rw [h1]
  have h0 : |(0 : ℝ)| = 0 := abs_zero
  rw [h0]
  have hexp : (-1 : ℝ) / (-1) = 1 := by norm_num
  rw [hexp]
  norm_num [Real.rpow_one]

lemma superformulaR_clampProbe_boundary :
    superformulaR (clampProbeParams 0.1) 0 = (2 : ℝ) ^ (-10 : ℝ) := by
  unfold superformulaR clampProbeParams
  simp only [zero_mul, zero_div, Real.cos_zero, Real.sin_zero, div_one,
    Real.rpow_one]
  have h1 : |(1 : ℝ) / (1 / 2)| = 2 := by norm_num
  rw [h1]
  have h0 : |(0 : ℝ)| = 0 := abs_zero
  rw [h0]
  have hexp : (-1 : ℝ) / (0.1 : ℝ) = -10 := by norm_num
  rw [hexp]
  have hlt : (2 : ℝ) ^ (-10 : ℝ) < 1 :=
    Real.rpow_lt_one_of_one_lt_of_neg (by norm_num) (by norm_num)
  have hcond : ((2 : ℝ) + 0 > 20) = False := by norm_num
  have hsum : (2 : ℝ) + 0 = 2 := by norm_num
  rw [hsum]
  have : ¬ ((2 : ℝ) ^ (-10 : ℝ) > 20) := by
    intro hgt; linarith
  simp only [abs_two, this, if_false]
  norm_num

/-- Counterexample to C5 as stated: the evaluator applies no clamping
to an out-of-domain `n1`.  With the documented boundary `0.1` (the UI
minimum for `n1`), evaluating at the out-of-domain `n1 = -1` gives a
different point list than evaluating at the boundary value: at
`phi = 0` the raw evaluation yields radius `2` (x-coordinate `550`)
while the boundary-clamped evaluation yields radius `2^(-10) < 1`
(x-coordinate below `400`). -/
theorem calculatePoints_no_clamp_counterexample :
    calculatePoints (clampProbeParams (-1)) ≠
      calculatePoints (clampProbeParams 0.1) := by
  intro h
  have h0a : 0 < (calculatePoints (clampProbeParams (-1))).length := by
    rw [calculatePoints_length]; norm_num [clampProbeParams]
  have h0b : 0 < (calculatePoints (clampProbeParams 0.1)).length := by
    rw [calculatePoints_length]; norm_num [clampProbeParams]
  have hx := congrArg (fun l => (l.getD 0 ((0 : ℝ), (0 : ℝ))).1) h
  simp only at hx
  rw [List.getD_eq_getElem _ _ h0a, List.getD_eq_getElem _ _ h0b] at hx
  rw [calculatePoints_getElem _ 0 h0a, calculatePoints_getElem _ 0 h0b] at hx
  have hφ0a : ((0 : ℕ) : ℝ) * 2 * Real.pi / ((clampProbeParams (-1)).resolution : ℝ) = 0 := by
    norm_num
  have hφ0b : ((0 : ℕ) : ℝ) * 2 * Real.pi / ((clampProbeParams 0.1).resolution : ℝ) = 0 := by
    norm_num
  rw [hφ0a, hφ0b] at hx
  unfold superPoint at hx
  rw [superformulaR_clampProbe_neg_one, superformulaR_clampProbe_boundary] at hx
  rw [Real.cos_zero] at hx
  simp only at hx
  have hlt : (2 : ℝ) ^ (-10 : ℝ) < 1 :=
    Real.rpow_lt_one_of_one_lt_of_neg (by norm_num) (by norm_num)
  nlinarith [hlt]

/-- Claim C5 (amended): the evaluator applies no clamping to
out-of-domain shape parameters (the UI sliders enforce the documented
domains instead).  Nevertheless, for any symmetry order `m`
(in or out of domain) and any negative `n1`, with `n2, n3, a, b > 0`,
every emitted coordinate still lies within `3000` units of the center,
because the computed radius is clamped to at most `20`.  The value
`n1 = 0` is unguarded by the code (in IEEE arithmetic
`pow(t1+t2, -1/0)` can yield `NaN` when `t1+t2 = 1`), which is outside
this real-valued model. -/
theorem calculatePoints_out_of_domain_bounded (p : SuperformulaParams)
    (hn1 : p.n1 < 0) (hn2 : 0 < p.n2) (hn3 : 0 < p.n3)
    (ha : 0 < p.a) (hb : 0 < p.b) (hres : 0 < p.resolution) :
    ∀ i (hi : i < (calculatePoints p).length),
      |((calculatePoints p)[i]).1 - 250| ≤ 3000 ∧
        |((calculatePoints p)[i]).2 - 250| ≤ 3000 := by
  intro i hi
  rw [calculatePoints_getElem p i hi]
  exact superPoint_bounded p _

/-- Witness for the amended C5 at an out-of-domain parameter set
(`m = -3`, `n1 = -1`), first point. -/
theorem calculatePoints_out_of_domain_bounded_witness :
    |((calculatePoints ⟨-3, -1, 1, 1, 1, 1, 1⟩).getD 0 ((0 : ℝ), (0 : ℝ))).1 - 250| ≤ 3000 ∧
      |((calculatePoints ⟨-3, -1, 1, 1, 1, 1, 1⟩).getD 0 ((0 : ℝ), (0 : ℝ))).2 - 250| ≤ 3000 := by
  have h0 : 0 < (calculatePoints ⟨-3, -1, 1, 1, 1, 1, 1⟩).length := by
    rw [calculatePoints_length]
    norm_num
  rw [List.getD_eq_getElem _ _ h0]
  exact calculatePoints_out_of_domain_bounded ⟨-3, -1, 1, 1, 1, 1, 1⟩
    (by norm_num) (by norm_num) (by norm_num)
    (by norm_num) (by norm_num) (by norm_num) 0 h0

/-!
## Fractal tree generator (`AlgorithmicDesigner.tsx`)

The canvas transform stack is modelled by an explicit affine frame
(origin plus accumulated rotation); `ctx.translate(sx, sy)` followed by
`ctx.rotate(θ)` composes a new frame whose origin is the image of
`(sx, sy)` and whose rotation grows by `θ`.  Each `ctx.stroke()` of the
line from local `(0,0)` to `(0, -drawnLen)` becomes a `Segment` carrying
its global endpoints, the drawn length, and the `currentDepth` index.
-/

/-- An affine frame: a translation followed by a rotation by `theta`. -/
structure Frame where
  origin : ℝ × ℝ
  theta : ℝ

/-- Image of a local point under the frame (standard rotation matrix
applied in canvas coordinates, then translated). -/
noncomputable def Frame.apply (F : Frame) (v : ℝ × ℝ) : ℝ × ℝ :=
  (F.origin.1 + v.1 * Real.cos F.theta - v.2 * Real.sin F.theta,
   F.origin.2 + v.1 * Real.sin F.theta + v.2 * Real.cos F.theta)

lemma Frame.apply_zero (F : Frame) : F.apply (0, 0) = F.origin := by
  simp [Frame.apply]

/-- One drawn line of the fractal tree. -/
structure Segment where
  start : ℝ × ℝ
  endPoint : ℝ × ℝ
  len : ℝ
  depthIdx : ℕ

/-- Everything `drawTree` closes over: the `FractalParams` fields and
the growth/wind/time state it reads
(`AlgorithmicDesigner.tsx`, lines 233–243). -/
structure FractalCtx where
  angle : ℝ
  depth : ℕ
  lengthMultiplier : ℝ
  branchCount : ℕ
  growth : ℝ
  enableWind : Bool
  time : ℝ

/-- Wind offset of one call (`AlgorithmicDesigner.tsx`, lines 261–266):
`sin(time·0.002 + currentDepth) · (currentDepth·0.5)` when wind is on. -/
noncomputable def windAngleAt (ctx : FractalCtx) (cd : ℕ) : ℝ :=
  if ctx.enableWind then
    Real.sin (ctx.time * 0.002 + (cd : ℝ)) * ((cd : ℝ) * 0.5)
  else 0

/-- The frame after `translate(sx, sy)` and
`rotate((ang + windAngle)·π/180)` (lines 258–268). -/
noncomputable def branchFrame (ctx : FractalCtx) (F : Frame)
    (sx sy ang : ℝ) (cd : ℕ) : Frame :=
  ⟨F.apply (sx, sy), F.theta + (ang + windAngleAt ctx cd) * Real.pi / 180⟩

/-- Drawn length of one call (line 274):
`len · min(1, growth · (depth/2))`. -/
noncomputable def drawnLength (ctx : FractalCtx) (len : ℝ) : ℝ :=
  len * min 1 (ctx.growth * ((ctx.depth : ℝ) / 2))

/-- The recursive generator `drawTree`
(`AlgorithmicDesigner.tsx`, lines 246–304), with the remaining depth
as the recursion argument.  A call draws its own segment from local
`(0,0)` to `(0, -drawnLen)`; when the remaining depth is at least 1 it
recurses into children rooted at `(0, -drawnLen)` with length
`len · lengthMultiplier`, at angles `+angle`, `-angle`, and `0`
(the last only when `branchCount > 2`). -/
noncomputable def drawTree (ctx : FractalCtx) :
    ℕ → Frame → ℝ → ℝ → ℝ → ℝ → ℕ → List Segment
  | 0, F, sx, sy, len, ang, cd =>
      let F' := branchFrame ctx F sx sy ang cd
      let dl := drawnLength ctx len
      [⟨F'.apply (0, 0), F'.apply (0, -dl), dl, cd⟩]
  | d + 1, F, sx, sy, len, ang, cd =>
      let F' := branchFrame ctx F sx sy ang cd
      let dl := drawnLength ctx len
      let nextLen := len * ctx.lengthMultiplier
      ⟨F'.apply (0, 0), F'.apply (0, -dl), dl, cd⟩ ::
        (drawTree ctx d F' 0 (-dl) nextLen ctx.angle (cd + 1) ++
         drawTree ctx d F' 0 (-dl) nextLen (-ctx.angle) (cd + 1) ++
         if 2 < ctx.branchCount then
           drawTree ctx d F' 0 (-dl) nextLen 0 (cd + 1)
         else [])

/-- The root segment of any call. -/
noncomputable def rootSeg (ctx : FractalCtx) (F : Frame)
    (sx sy len ang : ℝ) (cd : ℕ) : Segment :=
  let F' := branchFrame ctx F sx sy ang cd
  let dl := drawnLength ctx len
  ⟨F'.apply (0, 0), F'.apply (0, -dl), dl, cd⟩

lemma drawTree_zero (ctx : FractalCtx) (F : Frame) (sx sy len ang : ℝ) (cd : ℕ) :
    drawTree ctx 0 F sx sy len ang cd = [rootSeg ctx F sx sy len ang cd] := by
  simp [drawTree, rootSeg]

lemma drawTree_succ (ctx : FractalCtx) (d : ℕ) (F : Frame)
    (sx sy len ang : ℝ) (cd : ℕ) :
    drawTree ctx (d + 1) F sx sy len ang cd =
      rootSeg ctx F sx sy len ang cd ::
        (drawTree ctx d (branchFrame ctx F sx sy ang cd) 0
            (-(drawnLength ctx len)) (len * ctx.lengthMultiplier) ctx.angle (cd + 1) ++
         drawTree ctx d (branchFrame ctx F sx sy ang cd) 0
            (-(drawnLength ctx len)) (len * ctx.lengthMultiplier) (-ctx.angle) (cd + 1) ++
         if 2 < ctx.branchCount then
           drawTree ctx d (branchFrame ctx F sx sy ang cd) 0
              (-(drawnLength ctx len)) (len * ctx.lengthMultiplier) 0 (cd + 1)
         else []) := by
  simp [drawTree, rootSeg]

/-- The root segment starts at the image of the call's start point. -/
lemma rootSeg_start (ctx : FractalCtx) (F : Frame)
    (sx sy len ang : ℝ) (cd : ℕ) :
    (rootSeg ctx F sx sy len ang cd).start = F.apply (sx, sy) := by
  simp [rootSeg, branchFrame, Frame.apply]

/-- Every call emits at least its own segment. -/
lemma drawTree_ne_nil (ctx : FractalCtx) (d : ℕ) (F : Frame)
    (sx sy len ang : ℝ) (cd : ℕ) :
    drawTree ctx d F sx sy len ang cd ≠ [] := by
  cases d <;> simp [drawTree]

/-- The head of the emitted list is the call's own segment. -/
lemma drawTree_head (ctx : FractalCtx) (d : ℕ) (F : Frame)
    (sx sy len ang : ℝ) (cd : ℕ) :
    (drawTree ctx d F sx sy len ang cd).head? =
      some (rootSeg ctx F sx sy len ang cd) := by
  cases d
  · rw [drawTree_zero]; rfl
  · rw [drawTree_succ]; rfl

lemma drawTree_length_binary (ctx : FractalCtx) (h : ¬ 2 < ctx.branchCount) :
    ∀ (d : ℕ) (F : Frame) (sx sy len ang : ℝ) (cd : ℕ),
      (drawTree ctx d F sx sy len ang cd).length = 2 ^ (d + 1) - 1 := by
  intro d
  induction d with
  | zero =>
      intro F sx sy len ang cd
      rw [drawTree_zero]
      rfl
  | succ d ih =>
      intro F sx sy len ang cd
      rw [drawTree_succ]
      simp only [List.length_cons, List.length_append, if_neg h, List.length_nil]
      rw [ih, ih]
      have h1 : 1 ≤ 2 ^ (d + 1) := Nat.one_le_two_pow
      have h2 : 2 ^ (d + 1 + 1) = 2 * 2 ^ (d + 1) := by ring
      omega

lemma drawTree_length_ternary (ctx : FractalCtx) (h : 2 < ctx.branchCount) :
    ∀ (d : ℕ) (F : Frame) (sx sy len ang : ℝ) (cd : ℕ),
      2 * (drawTree ctx d F sx sy len ang cd).length = 3 ^ (d + 1) - 1 := by
  intro d
  induction d with
  | zero =>
      intro F sx sy len ang cd
      rw [drawTree_zero]
      rfl
  | succ d ih =>
      intro F sx sy len ang cd
      rw [drawTree_succ]
      simp only [List.length_cons, List.length_append, if_pos h]
      have e1 := ih (branchFrame ctx F sx sy ang cd) 0 (-(drawnLength ctx len))
        (len * ctx.lengthMultiplier) ctx.angle (cd + 1)
      have e2 := ih (branchFrame ctx F sx sy ang cd) 0 (-(drawnLength ctx len))
        (len * ctx.lengthMultiplier) (-ctx.angle) (cd + 1)
      have e3 := ih (branchFrame ctx F sx sy ang cd) 0 (-(drawnLength ctx len))
        (len * ctx.lengthMultiplier) 0 (cd + 1)
      have h1 : 1 ≤ 3 ^ (d + 1) := Nat.one_le_pow _ _ (by norm_num)
      have h2 : 3 ^ (d + 1 + 1) = 3 * 3 ^ (d + 1) := by ring
      omega

/-- Claim C3: `drawTree` called with remaining depth `d` emits exactly
`2^(d+1) − 1` segments when `branchCount = 2` and `(3^(d+1) − 1)/2`
segments when `branchCount = 3`; with `d = 0` it emits exactly one
segment (the trunk), regardless of `branchCount`. -/
theorem drawTree_segment_count (ctx : FractalCtx) (F : Frame)
    (sx sy len ang : ℝ) (cd : ℕ) (d : ℕ) :
    (ctx.branchCount = 2 →
        (drawTree ctx d F sx sy len ang cd).length = 2 ^ (d + 1) - 1) ∧
      (ctx.branchCount = 3 →
        (drawTree ctx d F sx sy len ang cd).length = (3 ^ (d + 1) - 1) / 2) ∧
      (d = 0 → (drawTree ctx d F sx sy len ang cd).length = 1) := by
  refine ⟨fun hb => ?_, fun hb => ?_, fun hd => ?_⟩
  · exact drawTree_length_binary ctx (by omega) d F sx sy len ang cd
  · have := drawTree_length_ternary ctx (by omega) d F sx sy len ang cd
    omega
  · subst hd
    rw [drawTree_zero]
    rfl

/-- The context used by witnesses for the fractal claims: the initial
parameter values of the designer with the animation fully grown. -/
def witnessCtx (bc : ℕ) : FractalCtx :=
  { angle := 25, depth := 10, lengthMultiplier := 0.7, branchCount := bc,
    growth := 1, enableWind := false, time := 0 }

/-- Witness for C3 with `branchCount = 2`, `d = 3` (and the other
conjuncts instantiated at the same call). -/
theorem drawTree_segment_count_witness :
    ((witnessCtx 2).branchCount = 2 →
        (drawTree (witnessCtx 2) 3 ⟨(0, 0), 0⟩ 0 0 100 0 0).length = 2 ^ (3 + 1) - 1) ∧
      ((witnessCtx 2).branchCount = 3 →
        (drawTree (witnessCtx 2) 3 ⟨(0, 0), 0⟩ 0 0 100 0 0).length = (3 ^ (3 + 1) - 1) / 2) ∧
      (3 = 0 → (drawTree (witnessCtx 2) 3 ⟨(0, 0), 0⟩ 0 0 100 0 0).length = 1) :=
  drawTree_segment_count (witnessCtx 2) ⟨(0, 0), 0⟩ 0 0 100 0 0 3

lemma drawTree_depthIdx_le (ctx : FractalCtx) :
    ∀ (d : ℕ) (F : Frame) (sx sy len ang : ℝ) (cd : ℕ),
      ∀ s ∈ drawTree ctx d F sx sy len ang cd, cd ≤ s.depthIdx := by
  intro d
  induction d with
  | zero =>
      intro F sx sy len ang cd s hs
      rw [drawTree_zero] at hs
      rcases List.mem_singleton.mp hs with rfl
      simp [rootSeg]
  | succ d ih =>
      intro F sx sy len ang cd s hs
      rw [drawTree_succ] at hs
      rcases List.mem_cons.mp hs with rfl | hs'
      · simp [rootSeg]
      · rcases List.mem_append.mp hs' with hs'' | h3
        · rcases List.mem_append.mp hs'' with h1 | h2
          · have := ih _ _ _ _ _ _ s h1; omega
          · have := ih _ _ _ _ _ _ s h2; omega
        · by_cases hbc : 2 < ctx.branchCount
          · rw [if_pos hbc] at h3
            have := ih _ _ _ _ _ _ s h3; omega
          · rw [if_neg hbc] at h3
            exact absurd h3 (List.not_mem_nil s)

lemma drawTree_len_eq (ctx : FractalCtx) :
    ∀ (d : ℕ) (F : Frame) (sx sy len ang : ℝ) (cd : ℕ),
      ∀ s ∈ drawTree ctx d F sx sy len ang cd,
        s.len = len * ctx.lengthMultiplier ^ (s.depthIdx - cd) *
          min 1 (ctx.growth * ((ctx.depth : ℝ) / 2)) := by
  intro d
  induction d with
  | zero =>
      intro F sx sy len ang cd s hs
      rw [drawTree_zero] at hs
      rcases List.mem_singleton.mp hs with rfl
      simp [rootSeg, drawnLength]
  | succ d ih =>
      intro F sx sy len ang cd s hs
      rw [drawTree_succ] at hs
      rcases List.mem_cons.mp hs with rfl | hs'
      · simp [rootSeg, drawnLength]
      · have sub : ∀ ang' : ℝ,
            s ∈ drawTree ctx d (branchFrame ctx F sx sy ang cd) 0
              (-(drawnLength ctx len)) (len * ctx.lengthMultiplier) ang' (cd + 1) →
            s.len = len * ctx.lengthMultiplier ^ (s.depthIdx - cd) *
              min 1 (ctx.growth * ((ctx.depth : ℝ) / 2)) := by
          intro ang' hmem
          have hle := drawTree_depthIdx_le ctx d _ _ _ _ _ _ s hmem
          have heq := ih _ _ _ _ _ _ s hmem
          have hk : s.depthIdx - cd = (s.depthIdx - (cd + 1)) + 1 := by omega
          rw [heq, hk, pow_succ]
          ring
        rcases List.mem_append.mp hs' with hs'' | h3
        · rcases List.mem_append.mp hs'' with h1 | h2
          · exact sub _ h1
          · exact sub _ h2
        · by_cases hbc : 2 < ctx.branchCount
          · rw [if_pos hbc] at h3
            exact sub _ h3
          · rw [if_neg hbc] at h3
            exact absurd h3 (List.not_mem_nil s)

/-- Claim C4: every emitted segment's drawn length is its remaining
length (`len · lengthMultiplier^(depthIdx − cd)`) times
`min(1, growth · (depth/2))`; hence growth `0` gives zero-length
segments everywhere, and growth at least `2/depth` saturates the clamp
and gives full-length segments at every depth. -/
theorem drawTree_drawn_length (ctx : FractalCtx) (d : ℕ) (F : Frame)
    (sx sy len ang : ℝ) (cd : ℕ) (s : Segment)
    (hs : s ∈ drawTree ctx d F sx sy len ang cd) :
    s.len = len * ctx.lengthMultiplier ^ (s.depthIdx - cd) *
        min 1 (ctx.growth * ((ctx.depth : ℝ) / 2)) ∧
      (ctx.growth = 0 → s.len = 0) ∧
      (0 < ctx.depth → 2 / (ctx.depth : ℝ) ≤ ctx.growth →
        s.len = len * ctx.lengthMultiplier ^ (s.depthIdx - cd)) := by
  have hmain := drawTree_len_eq ctx d F sx sy len ang cd s hs
  refine ⟨hmain, fun hg => ?_, fun hD hg => ?_⟩
  · rw [hmain, hg]
    simp
  · have hD' : (0 : ℝ) < (ctx.depth : ℝ) := by exact_mod_cast hD
    have hone : (1 : ℝ) ≤ ctx.growth * ((ctx.depth : ℝ) / 2) := by
      have hhalf : (0 : ℝ) < (ctx.depth : ℝ) / 2 := by positivity
      have hmul := mul_le_mul_of_nonneg_right hg hhalf.le
      have hId : (2 / (ctx.depth : ℝ)) * ((ctx.depth : ℝ) / 2) = 1 := by
        field_simp
      linarith [hId ▸ hmul]
    rw [hmain, min_eq_left hone, mul_one]

/-- Witness for C4 at the trunk of a depth-0 call with growth 1. -/
theorem drawTree_drawn_length_witness :
    (rootSeg (witnessCtx 2) ⟨(0, 0), 0⟩ 0 0 100 0 0).len =
        100 * (witnessCtx 2).lengthMultiplier ^
            ((rootSeg (witnessCtx 2) ⟨(0, 0), 0⟩ 0 0 100 0 0).depthIdx - 0) *
          min 1 ((witnessCtx 2).growth * (((witnessCtx 2).depth : ℝ) / 2)) ∧
      ((witnessCtx 2).growth = 0 →
        (rootSeg (witnessCtx 2) ⟨(0, 0), 0⟩ 0 0 100 0 0).len = 0) ∧
      (0 < (witnessCtx 2).depth → 2 / ((witnessCtx 2).depth : ℝ) ≤ (witnessCtx 2).growth →
        (rootSeg (witnessCtx 2) ⟨(0, 0), 0⟩ 0 0 100 0 0).len =
          100 * (witnessCtx 2).lengthMultiplier ^
            ((rootSeg (witnessCtx 2) ⟨(0, 0), 0⟩ 0 0 100 0 0).depthIdx - 0)) :=
  drawTree_drawn_length (witnessCtx 2) 0 ⟨(0, 0), 0⟩ 0 0 100 0 0
    (rootSeg (witnessCtx 2) ⟨(0, 0), 0⟩ 0 0 100 0 0)
    (by rw [drawTree_zero]; exact List.mem_singleton_self _)


/-- Claim C10: the emitted segment tree is connected for every growth
fraction, time value, and wind setting: every segment either starts at
the image of the call's start point (the trunk) or starts at the end
point (the drawn tip, at distance `drawnLen` from that segment's
origin, not the full undrawn length) of another emitted segment — its
parent. -/
theorem drawTree_connected (ctx : FractalCtx) (d : ℕ) (F : Frame)
    (sx sy len ang : ℝ) (cd : ℕ) (s : Segment)
    (hs : s ∈ drawTree ctx d F sx sy len ang cd) :
    s.start = F.apply (sx, sy) ∨
      ∃ s' ∈ drawTree ctx d F sx sy len ang cd, s.start = s'.endPoint := by
  induction d generalizing F sx sy len ang cd s with
  | zero =>
      rw [drawTree_zero] at hs
      rcases List.mem_singleton.mp hs with rfl
      exact Or.inl (rootSeg_start ctx F sx sy len ang cd)
  | succ d ih =>
      rw [drawTree_succ] at hs
      have hroot_mem : rootSeg ctx F sx sy len ang cd ∈
          drawTree ctx (d + 1) F sx sy len ang cd := by
        rw [drawTree_succ]
        exact List.mem_cons_self _ _
      have hend : (rootSeg ctx F sx sy len ang cd).endPoint =
          (branchFrame ctx F sx sy ang cd).apply (0, -(drawnLength ctx len)) := by
        simp [rootSeg]
      rcases List.mem_cons.mp hs with rfl | hs'
      · exact Or.inl (rootSeg_start ctx F sx sy len ang cd)
      · have handle : ∀ ang' : ℝ,
            s ∈ drawTree ctx d (branchFrame ctx F sx sy ang cd) 0
              (-(drawnLength ctx len)) (len * ctx.lengthMultiplier) ang' (cd + 1) →
            (∀ t : Segment, t ∈ drawTree ctx d (branchFrame ctx F sx sy ang cd) 0
              (-(drawnLength ctx len)) (len * ctx.lengthMultiplier) ang' (cd + 1) →
              t ∈ drawTree ctx (d + 1) F sx sy len ang cd) →
            s.start = F.apply (sx, sy) ∨
              ∃ s' ∈ drawTree ctx (d + 1) F sx sy len ang cd,
                s.start = s'.endPoint := by
          intro ang' hmem hlift
          rcases ih (branchFrame ctx F sx sy ang cd) 0 (-(drawnLength ctx len))
              (len * ctx.lengthMultiplier) ang' (cd + 1) s hmem with
            hstart | ⟨s', hs'm, heq⟩
          · exact Or.inr ⟨rootSeg ctx F sx sy len ang cd, hroot_mem, by
              rw [hstart, hend]⟩
          · exact Or.inr ⟨s', hlift s' hs'm, heq⟩
        rcases List.mem_append.mp hs' with hs'' | h3
        · rcases List.mem_append.mp hs'' with h1 | h2
          · refine handle ctx.angle h1 fun t ht => ?_
            rw [drawTree_succ]
            exact List.mem_cons_of_mem _ (List.mem_append_left _ (List.mem_append_left _ ht))
          · refine handle (-ctx.angle) h2 fun t ht => ?_
            rw [drawTree_succ]
            exact List.mem_cons_of_mem _ (List.mem_append_left _ (List.mem_append_right _ ht))
        · by_cases hbc : 2 < ctx.branchCount
          · rw [if_pos hbc] at h3
            refine handle 0 h3 fun t ht => ?_
            rw [drawTree_succ, if_pos hbc]
            exact List.mem_cons_of_mem _ (List.mem_append_right _ ht)
          · rw [if_neg hbc] at h3
            exact absurd h3 (List.not_mem_nil s)

/-- Witness for C10 at the trunk segment of a depth-0 call. -/
theorem drawTree_connected_witness :
    (rootSeg (witnessCtx 2) ⟨(0, 0), 0⟩ 0 0 100 0 0).start =
        Frame.apply ⟨(0, 0), 0⟩ (0, 0) ∨
      ∃ s' ∈ drawTree (witnessCtx 2) 0 ⟨(0, 0), 0⟩ 0 0 100 0 0,
        (rootSeg (witnessCtx 2) ⟨(0, 0), 0⟩ 0 0 100 0 0).start = s'.endPoint :=
  drawTree_connected (witnessCtx 2) 0 ⟨(0, 0), 0⟩ 0 0 100 0 0
    (rootSeg (witnessCtx 2) ⟨(0, 0), 0⟩ 0 0 100 0 0)
    (by rw [drawTree_zero]; exact List.mem_singleton_self _)

/-!
## Randomize operation (`ParametricDesigner.tsx`, lines 50–60)
-/

/-- `parseFloat(x.toFixed(1))`: rounding to the nearest tenth. -/
noncomputable def round1 (x : ℝ) : ℝ := (round (x * 10) : ℝ) / 10

/-- The `handleRandomize` handler, with the four `Math.random()` draws
(each uniform on `[0,1)`) made explicit inputs:
`m = floor(r1·16) + 2`, `n1 = round1(r2·10 + 0.1)`,
`n2 = round1(r3·5 + 0.1)`, `n3 = round1(r4·5 + 0.1)`, `a = b = 1`,
`resolution = 360`. -/
noncomputable def handleRandomize (r1 r2 r3 r4 : ℝ) : SuperformulaParams :=
  { m := (⌊r1 * 16⌋ : ℝ) + 2,
    n1 := round1 (r2 * 10 + 0.1),
    n2 := round1 (r3 * 5 + 0.1),
    n3 := round1 (r4 * 5 + 0.1),
    a := 1, b := 1, resolution := 360 }

/-- Rounding to the nearest tenth keeps a value of `[k/10, K/10)` inside
`[k/10, K/10]`. -/
lemma round1_mem (x : ℝ) (k K : ℤ) (hlo : (k : ℝ) / 10 ≤ x)
    (hhi : x < (K : ℝ) / 10) :
    (k : ℝ) / 10 ≤ round1 x ∧ round1 x ≤ (K : ℝ) / 10 := by
  have h1 : k ≤ round (x * 10) := by
    rw [round_eq]
    apply Int.le_floor.mpr
    nlinarith
  have h2 : round (x * 10) ≤ K := by
    rw [round_eq]
    have hlt : ⌊x * 10 + 1 / 2⌋ < K + 1 := by
      apply Int.floor_lt.mpr
      push_cast
      nlinarith
    omega
  have h1' : (k : ℝ) ≤ (round (x * 10) : ℝ) := by exact_mod_cast h1
  have h2' : ((round (x * 10) : ℤ) : ℝ) ≤ (K : ℝ) := by exact_mod_cast h2
  unfold round1
  constructor <;> linarith

/-- Claim C8: for every outcome of the four uniform draws,
`handleRandomize` emits a parameter set within the documented bounds:
`m` an integer in `[2, 17]`, `n1 ∈ [0.1, 10.1]`, `n2, n3 ∈ [0.1, 5.1]`,
`a = b = 1`, `resolution = 360`. -/
theorem handleRandomize_bounds (r1 r2 r3 r4 : ℝ)
    (h1 : 0 ≤ r1) (h1' : r1 < 1) (h2 : 0 ≤ r2) (h2' : r2 < 1)
    (h3 : 0 ≤ r3) (h3' : r3 < 1) (h4 : 0 ≤ r4) (h4' : r4 < 1) :
    (∃ k : ℤ, (handleRandomize r1 r2 r3 r4).m = (k : ℝ) ∧ 2 ≤ k ∧ k ≤ 17) ∧
      (0.1 ≤ (handleRandomize r1 r2 r3 r4).n1 ∧
        (handleRandomize r1 r2 r3 r4).n1 ≤ 10.1) ∧
      (0.1 ≤ (handleRandomize r1 r2 r3 r4).n2 ∧
        (handleRandomize r1 r2 r3 r4).n2 ≤ 5.1) ∧
      (0.1 ≤ (handleRandomize r1 r2 r3 r4).n3 ∧
        (handleRandomize r1 r2 r3 r4).n3 ≤ 5.1) ∧
      (handleRandomize r1 r2 r3 r4).a = 1 ∧
      (handleRandomize r1 r2 r3 r4).b = 1 ∧
      (handleRandomize r1 r2 r3 r4).resolution = 360 := by
  refine ⟨⟨⌊r1 * 16⌋ + 2, ?_, ?_, ?_⟩, ⟨?_, ?_⟩, ⟨?_, ?_⟩, ⟨?_, ?_⟩, rfl, rfl, rfl⟩
  · show (⌊r1 * 16⌋ : ℝ) + 2 = ((⌊r1 * 16⌋ + 2 : ℤ) : ℝ)
    push_cast
    ring
  · have : (0 : ℤ) ≤ ⌊r1 * 16⌋ := Int.floor_nonneg.mpr (by nlinarith)
    omega
  · have : ⌊r1 * 16⌋ < 16 := Int.floor_lt.mpr (by push_cast; nlinarith)
    omega
  · have h := (round1_mem (r2 * 10 + 0.1) 1 101 (by push_cast; nlinarith)
      (by push_cast; nlinarith)).1
    show (0.1 : ℝ) ≤ round1 (r2 * 10 + 0.1)
    have e : ((1 : ℤ) : ℝ) / 10 = 0.1 := by norm_num
    linarith [e ▸ h]
  · have h := (round1_mem (r2 * 10 + 0.1) 1 101 (by push_cast; nlinarith)
      (by push_cast; nlinarith)).2
    show round1 (r2 * 10 + 0.1) ≤ (10.1 : ℝ)
    have e : ((101 : ℤ) : ℝ) / 10 = 10.1 := by norm_num
    linarith [e ▸ h]
  · have h := (round1_mem (r3 * 5 + 0.1) 1 51 (by push_cast; nlinarith)
      (by push_cast; nlinarith)).1
    show (0.1 : ℝ) ≤ round1 (r3 * 5 + 0.1)
    have e : ((1 : ℤ) : ℝ) / 10 = 0.1 := by norm_num
    linarith [e ▸ h]
  · have h := (round1_mem (r3 * 5 + 0.1) 1 51 (by push_cast; nlinarith)
      (by push_cast; nlinarith)).2
    show round1 (r3 * 5 + 0.1) ≤ (5.1 : ℝ)
    have e : ((51 : ℤ) : ℝ) / 10 = 5.1 := by norm_num
    linarith [e ▸ h]
  · have h := (round1_mem (r4 * 5 + 0.1) 1 51 (by push_cast; nlinarith)
      (by push_cast; nlinarith)).1
    show (0.1 : ℝ) ≤ round1 (r4 * 5 + 0.1)
    have e : ((1 : ℤ) : ℝ) / 10 = 0.1 := by norm_num
    linarith [e ▸ h]
  · have h := (round1_mem (r4 * 5 + 0.1) 1 51 (by push_cast; nlinarith)
      (by push_cast; nlinarith)).2
    show round1 (r4 * 5 + 0.1) ≤ (5.1 : ℝ)
    have e : ((51 : ℤ) : ℝ) / 10 = 5.1 := by norm_num
    linarith [e ▸ h]

/-- Witness for C8 at all-zero draws. -/
theorem handleRandomize_bounds_witness :
    (∃ k : ℤ, (handleRandomize 0 0 0 0).m = (k : ℝ) ∧ 2 ≤ k ∧ k ≤ 17) ∧
      (0.1 ≤ (handleRandomize 0 0 0 0).n1 ∧ (handleRandomize 0 0 0 0).n1 ≤ 10.1) ∧
      (0.1 ≤ (handleRandomize 0 0 0 0).n2 ∧ (handleRandomize 0 0 0 0).n2 ≤ 5.1) ∧
      (0.1 ≤ (handleRandomize 0 0 0 0).n3 ∧ (handleRandomize 0 0 0 0).n3 ≤ 5.1) ∧
      (handleRandomize 0 0 0 0).a = 1 ∧
      (handleRandomize 0 0 0 0).b = 1 ∧
      (handleRandomize 0 0 0 0).resolution = 360 :=
  handleRandomize_bounds 0 0 0 0 (by norm_num) (by norm_num) (by norm_num)
    (by norm_num) (by norm_num) (by norm_num) (by norm_num) (by norm_num)

/-!
## Growth/parameter state machine (`AlgorithmicDesigner.tsx`)

The React state of the designer is modelled as a record, and each
handler (animation tick, slider `onChange`, wind toggle, regrow button)
as an event of a step function.  React batches the two state updates of
the depth slider handler (`setParams` + `setGrowth(0)`, lines 391–394),
so a depth-change event atomically updates both fields; a frame is
rendered from the state between events.  The field `growthDepth` is a
history variable recording the depth under which the growth value last
accumulated (it is written exactly when a tick increments `growth`). -/

/-- `FractalParams` of `types.ts`. -/
structure FractalParams where
  angle : ℝ
  depth : ℕ
  lengthMultiplier : ℝ
  branchCount : ℕ

/-- The designer's state: parameters, growth fraction, animation flag,
wind flag, time, plus the `growthDepth` history variable. -/
structure DesignerState where
  params : FractalParams
  growth : ℝ
  isAnimating : Bool
  enableWind : Bool
  time : ℝ
  growthDepth : ℕ

/-- The events of the designer: one animation-loop tick (lines
327–343), the three slider handlers (lines 375–410), the wind toggle,
and the regrow button (`resetAnimation`, lines 345–348). -/
inductive DesignerEvent where
  | tick (now : ℝ)
  | setAngle (a : ℝ)
  | setDepth (d : ℕ)
  | setLengthMultiplier (l : ℝ)
  | toggleWind
  | resetGrowth

/-- One step of the designer: the tick advances growth by `0.01`
(capped at `1`) while animating, and advances time when wind is on;
the depth slider writes the new depth and zeroes growth in the same
batched update; the regrow button zeroes growth and restarts the
animation. -/
noncomputable def stepState (s : DesignerState) : DesignerEvent → DesignerState
  | .tick now =>
      if s.isAnimating = true ∧ s.growth < 1 then
        { s with growth := min (s.growth + 0.01) 1,
                 growthDepth := s.params.depth,
                 time := if s.enableWind then now else s.time }
      else
        { s with time := if s.enableWind then now else s.time }
  | .setAngle a => { s with params := { s.params with angle := a } }
  | .setDepth d => { s with params := { s.params with depth := d }, growth := 0 }
  | .setLengthMultiplier l =>
      { s with params := { s.params with lengthMultiplier := l } }
  | .toggleWind => { s with enableWind := !s.enableWind }
  | .resetGrowth => { s with growth := 0, isAnimating := true }

/-- The initial state of the designer (lines 233–243). -/
noncomputable def designerInit : DesignerState :=
  { params := { angle := 25, depth := 10, lengthMultiplier := 0.7, branchCount := 2 },
    growth := 0, isAnimating := true, enableWind := false, time := 0,
    growthDepth := 10 }

/-- States reachable from the initial state by any event sequence. -/
inductive ReachableState : DesignerState → Prop where
  | init : ReachableState designerInit
  | step (s : DesignerState) (e : DesignerEvent) :
      ReachableState s → ReachableState (stepState s e)

/-- Claim C9: whenever the depth parameter changes, growth is reset to
`0` in the same state update; consequently, in every reachable state —
i.e. in every rendered frame — a nonzero growth value is always paired
with the depth under which it accumulated. -/
theorem growth_depth_coherent (s : DesignerState)
    (hreach : ReachableState s) :
    s.growth ≠ 0 → s.growthDepth = s.params.depth := by
  induction hreach with
  | init =>
      intro hg
      exact absurd rfl hg
  | step s' e hr ih =>
      intro hg
      cases e with
      | tick now =>
          by_cases hc : s'.isAnimating = true ∧ s'.growth < 1
          · simp [stepState, hc]
          · simp only [stepState, if_neg hc] at hg ⊢
            exact ih hg
      | setAngle a =>
          simp only [stepState] at hg ⊢
          exact ih hg
      | setDepth d =>
          simp [stepState] at hg
      | setLengthMultiplier l =>
          simp only [stepState] at hg ⊢
          exact ih hg
      | toggleWind =>
          simp only [stepState] at hg ⊢
          exact ih hg
      | resetGrowth =>
          simp [stepState] at hg

/-- Witness for C9 after one growth tick from the initial state. -/
theorem growth_depth_coherent_witness :
    (stepState designerInit (DesignerEvent.tick 0)).growthDepth =
      (stepState designerInit (DesignerEvent.tick 0)).params.depth :=
  growth_depth_coherent (stepState designerInit (DesignerEvent.tick 0))
    (ReachableState.step designerInit (DesignerEvent.tick 0) ReachableState.init)
    (by
      simp only [stepState, designerInit]
      norm_num)
